import Mathlib

/-!
# Verification of the brokerage PDF-to-Excel reconciliation engine

Shallow embedding of `src/app.py` (a Flask application that extracts per-fund
brokerage trail rates from PDF documents and reconciles them against spreadsheet
rows).  Strings are modelled as `List Char` restricted to ASCII (the Python
regexes `\w`, `\s`, `\d` and the methods `.lower()`, `.upper()`, `.strip()` are
modelled on their ASCII behaviour, which is the character repertoire of the
documents this program targets).

Rates are modelled in exact hundredths (`Nat`): the numeric pattern
`(\d*\.\d{1,2}%?)` extracts at most two fractional digits, so every rate the
program ever manipulates is an exact multiple of 0.01 and Python-float
comparison on such values (`> 10.0`, `!= 1.35`, truthiness of `0.0`) coincides
with exact decimal comparison.  A stored value `k : Nat` denotes the rate
`k / 100` (e.g. `50` denotes `0.50`, the ceiling `10.0` is `1000`).
-/

namespace App

/-- Python `\s` (ASCII part): the whitespace characters recognised by
`str.strip` and the `\s` class — space, tab, newline, carriage return,
vertical tab, form feed (code points 32, 9, 10, 13, 11, 12). -/
def pyIsSpace (c : Char) : Bool :=
  c.toNat = 32 || c.toNat = 9 || c.toNat = 10 || c.toNat = 13 ||
    c.toNat = 11 || c.toNat = 12

/-- Python `\w` (ASCII part): digits, letters and underscore. -/
def pyIsWord (c : Char) : Bool :=
  (48 ≤ c.toNat && c.toNat ≤ 57) || (65 ≤ c.toNat && c.toNat ≤ 90) ||
    (97 ≤ c.toNat && c.toNat ≤ 122) || c.toNat = 95

/-- The characters kept by `re.sub(r"[^\w\s.]", "", text)` in `normalize`. -/
def keepChar (c : Char) : Bool :=
  pyIsWord c || pyIsSpace c || c = '.'

/-- ASCII lower-casing, as Python `str.lower()` acts on ASCII text. -/
def pyLower (c : Char) : Char :=
  if 65 ≤ c.toNat ∧ c.toNat ≤ 90 then Char.ofNat (c.toNat + 32) else c

/-- ASCII upper-casing, as Python `str.upper()` acts on ASCII text. -/
def pyUpper (c : Char) : Char :=
  if 97 ≤ c.toNat ∧ c.toNat ≤ 122 then Char.ofNat (c.toNat - 32) else c

/-- Python `str.strip()`: drop leading and trailing whitespace. -/
def pyStrip (s : List Char) : List Char :=
  ((s.dropWhile pyIsSpace).reverse.dropWhile pyIsSpace).reverse

/-- Python substring test `needle in haystack`. -/
def containsSub (needle haystack : List Char) : Bool :=
  (List.range (haystack.length + 1)).any fun i => needle.isPrefixOf (haystack.drop i)

/-- The trailing plan-qualifier phrases stripped by `normalize`
(the alternation of the second `re.sub` in `normalize`). -/
def planPhrases : List (List Char) :=
  ["regular plan".data, "reg".data, "institutional plan".data,
   "ex institutional plan".data, "retail plan".data, "long term plan".data]

/-- Does `s` match the anchored pattern `\s*(regular plan|reg|institutional
plan|ex institutional plan|retail plan|long term plan)\s*$` starting at its
first character?  Since no phrase starts with whitespace, the leading `\s*`
must consume exactly the leading whitespace run. -/
def planTailAt (s : List Char) : Bool :=
  let s' := s.dropWhile pyIsSpace
  planPhrases.any fun p => p.isPrefixOf s' && (s'.drop p.length).all pyIsSpace

/-- Scan for the smallest index `≥ i` (within `fuel` steps) at which the
plan-suffix pattern matches. -/
def planTailIdxGo (s : List Char) : Nat → Nat → Option Nat
  | _, 0 => none
  | i, fuel + 1 =>
    if planTailAt (s.drop i) then some i else planTailIdxGo s (i + 1) fuel

/-- Index of the leftmost match of the plan-suffix pattern in `s`
(`re.sub` replaces the leftmost match; the match necessarily extends to the
end of the string because of the `$` anchor). -/
def planTailIdx (s : List Char) : Option Nat :=
  planTailIdxGo s 0 (s.length + 1)

/-- One application of
`re.sub(r"\s*(regular plan|...|long term plan)\s*$", "", text)`. -/
def stripPlanOnce (s : List Char) : List Char :=
  match planTailIdx s with
  | some i => s.take i
  | none => s

/-- Does the string anywhere carry a removable trailing plan phrase? -/
def hasPlanTail (s : List Char) : Bool :=
  (planTailIdx s).isSome

/-- First phase of `normalize`:
`re.sub(r"[^\w\s.]", "", str(text)).strip().lower()`. -/
def cleanText (s : List Char) : List Char :=
  (pyStrip (s.filter keepChar)).map pyLower

/-- `normalize` from `src/app.py` (lines 218–222): remove special characters,
strip, lower-case, strip one trailing plan-qualifier phrase, strip again. -/
def normalize (s : List Char) : List Char :=
  pyStrip (stripPlanOnce (cleanText s))

/-- The side condition of the idempotence property: after cleaning and removing
one trailing plan-qualifier phrase, another removable plan phrase remains
(i.e. the input effectively ends with a duplicated plan phrase). -/
def dupPlanTail (s : List Char) : Bool :=
  hasPlanTail (stripPlanOnce (cleanText s))

/-! ## A small regular-expression engine

`BROKERAGE_COLUMN_PATTERNS` (lines 39–47) are compiled regular expressions;
they are embedded as syntax trees over the constructs they actually use:
literal sequences, single-character classes, `\s*`-style starred classes,
ordered alternation, optional groups and the word boundary `\b`.  The matcher
below is a complete backtracking matcher (it explores every decomposition), so
its `search` is `true` exactly when a match exists — which is exactly the
truthiness of Python's `pattern.search(s)`.  All call sites in the source feed
the patterns already lower-cased text, so `re.IGNORECASE` is modelled by
lower-casing the subject character before comparing with the (lower-case)
pattern literals. -/

inductive RE where
  | lit : List Char → RE
  | cls : (Char → Bool) → RE
  | star : (Char → Bool) → RE
  | seq : RE → RE → RE
  | alt : RE → RE → RE
  | opt : RE → RE
  | wb : RE

/-- Word-character test lifted to the virtual characters just outside the
string (`none` = before the start / past the end, never a word char). -/
def isWordO : Option Char → Bool
  | none => false
  | some c => pyIsWord c

/-- Match a literal character sequence case-insensitively, then continue. -/
def litM : List Char → Option Char → List Char → (Option Char → List Char → Bool) → Bool
  | [], prev, inp, k => k prev inp
  | c :: cs, _, inp, k =>
    match inp with
    | [] => false
    | x :: xs => pyLower x = c && litM cs (some x) xs k

/-- Match `p*`: try every number of `p`-characters (shortest first; the set of
explored continuations is complete, so the Boolean result is
order-independent). -/
def starM (p : Char → Bool) : Option Char → List Char → (Option Char → List Char → Bool) → Bool
  | prev, [], k => k prev []
  | prev, c :: rest, k => k prev (c :: rest) || (p c && starM p (some c) rest k)

/-- The backtracking matcher: `reM r prev inp k` is `true` iff some prefix of
`inp` matches `r` (with `prev` the character just before `inp`, for `\b`)
and `k` accepts the remainder. -/
def reM : RE → Option Char → List Char → (Option Char → List Char → Bool) → Bool
  | .lit cs, prev, inp, k => litM cs prev inp k
  | .cls p, _, inp, k =>
    match inp with
    | [] => false
    | c :: rest => p c && k (some c) rest
  | .star p, prev, inp, k => starM p prev inp k
  | .seq a b, prev, inp, k => reM a prev inp fun p' r' => reM b p' r' k
  | .alt a b, prev, inp, k => reM a prev inp k || reM b prev inp k
  | .opt a, prev, inp, k => reM a prev inp k || k prev inp
  | .wb, prev, inp, k => (isWordO prev != isWordO inp.head?) && k prev inp

/-- `pattern.search(s)` as a Boolean: a match may start at any position. -/
def reSearch (r : RE) (s : List Char) : Bool :=
  (List.range (s.length + 1)).any fun i =>
    reM r (if i = 0 then none else s.get? (i - 1)) (s.drop i) fun _ _ => true

/-- `\s*` -/
def wsS : RE := .star pyIsSpace

/-- `(trail|commission|rate)` -/
def tcrA : RE := .alt (.lit "trail".data) (.alt (.lit "commission".data) (.lit "rate".data))

/-- `(year|yr)` -/
def yearYr : RE := .alt (.lit "year".data) (.lit "yr".data)

/-- Chain a list of regexes in sequence. -/
def seqL (rs : List RE) : RE := rs.foldr RE.seq (.lit [])

/-- `\b(first|1st)\s*(year|yr)\s*(trail|commission|rate)?\b` and its three
siblings for the 2nd–4th years (lines 40–43). -/
def ordinalPat (word num : String) : RE :=
  seqL [.wb, .alt (.lit word.data) (.lit num.data), wsS, yearYr, wsS, .opt tcrA, .wb]

/-- `\b(longterm|long\s*term|5\+?|beyond\s*4)\s*(year|yr)?\s*(trail|commission|rate)?\b`
(line 44). -/
def longtermPat : RE :=
  seqL [.wb,
    .alt (.lit "longterm".data)
      (.alt (seqL [.lit "long".data, wsS, .lit "term".data])
        (.alt (seqL [.lit "5".data, .opt (.lit "+".data)])
          (seqL [.lit "beyond".data, wsS, .lit "4".data]))),
    wsS, .opt yearYr, wsS, .opt tcrA, .wb]

/-- `1\s*[-to]\s*3` — note that `[-to]` is a character *class* matching a
single one of `-`, `t`, `o` (not the word "to"). -/
def oneRangeThree : RE :=
  seqL [.lit "1".data, wsS, .cls (fun c => c = '-' || c = 't' || c = 'o'), wsS, .lit "3".data]

/-- `\b(1\s*[-to]\s*3|1\s*through\s*3|first\s*3|initial\s*3)\s*(year|years|yr|yrs)\s*(trail|commission|rate)?\b`
(line 45). -/
def rangePat : RE :=
  seqL [.wb,
    .alt oneRangeThree
      (.alt (seqL [.lit "1".data, wsS, .lit "through".data, wsS, .lit "3".data])
        (.alt (seqL [.lit "first".data, wsS, .lit "3".data])
          (seqL [.lit "initial".data, wsS, .lit "3".data]))),
    wsS,
    .alt (.lit "year".data) (.alt (.lit "years".data) (.alt (.lit "yr".data) (.lit "yrs".data))),
    wsS, .opt tcrA, .wb]

/-- `\b(trail\s*(1\s*[-to]\s*3|1-3)|years?\s*1-3)\b` (line 46). -/
def trailRangePat : RE :=
  seqL [.wb,
    .alt (seqL [.lit "trail".data, wsS, .alt oneRangeThree (.lit "1-3".data)])
      (seqL [.lit "year".data, .opt (.lit "s".data), wsS, .lit "1-3".data]),
    .wb]

/-- The five canonical brokerage-tier names (`BROKERAGE_TYPES`, lines 20–26). -/
def BROKERAGE_TYPES : List (List Char) :=
  ["FIRST YEAR TRAIL".data, "SECOND YEAR TRAIL".data, "THIRD YEAR TRAIL".data,
   "FOURTH YEAR TRAIL".data, "LONGTERM YEAR TRAIL".data]

/-- `BROKERAGE_COLUMN_PATTERNS` (lines 39–47), in source order. -/
def BROKERAGE_COLUMN_PATTERNS : List (RE × List (List Char)) :=
  [(ordinalPat "first" "1st", ["FIRST YEAR TRAIL".data]),
   (ordinalPat "second" "2nd", ["SECOND YEAR TRAIL".data]),
   (ordinalPat "third" "3rd", ["THIRD YEAR TRAIL".data]),
   (ordinalPat "fourth" "4th", ["FOURTH YEAR TRAIL".data]),
   (longtermPat, ["LONGTERM YEAR TRAIL".data]),
   (rangePat, ["FIRST YEAR TRAIL".data, "SECOND YEAR TRAIL".data, "THIRD YEAR TRAIL".data]),
   (trailRangePat, ["FIRST YEAR TRAIL".data, "SECOND YEAR TRAIL".data, "THIRD YEAR TRAIL".data])]

/-- The tier classifier: the first pattern (in source order) whose `search`
succeeds contributes its tier list; no match contributes nothing.  This is the
`for pattern, brokerage_types in BROKERAGE_COLUMN_PATTERNS: ... break` loop
used at lines 124–128 and 180–183. -/
def tierTypes (s : List Char) : List (List Char) :=
  match BROKERAGE_COLUMN_PATTERNS.find? fun pr => reSearch pr.1 s with
  | some pr => pr.2
  | none => []

/-! ## The numeric rate pattern

`rate_pattern = re.compile(r"(\d*\.\d{1,2}%?)")` (line 102), used through
`findall` (first match in the table path, all matches in the text path) and
through `re.sub` (to erase rate substrings from a candidate fund-name line).
A match is digits, a mandatory period, one or two fractional digits (greedy)
and an optional percent sign; `float(m.replace(",", ".").rstrip("%"))` turns
it into its decimal value (the match never contains a comma, so the `replace`
is a no-op).  Values are in hundredths, see the header comment. -/

/-- Digits to a number, `float`-style. -/
def digitsVal (ds : List Char) : Nat :=
  ds.foldl (fun a c => a * 10 + (c.toNat - 48)) 0

/-- Try to match `\d*\.\d{1,2}%?` at the head of `s`.  Returns the value of
the matched rate in hundredths together with the number of characters
consumed (always at least 2: the period and one digit). -/
def tryRate (s : List Char) : Option (Nat × Nat) :=
  let ds := s.takeWhile Char.isDigit
  match s.drop ds.length with
  | '.' :: r2 =>
    let fs := (r2.takeWhile Char.isDigit).take 2
    if fs.isEmpty then none
    else
      let v := digitsVal ds * 100 + digitsVal fs * 10 ^ (2 - fs.length)
      let n := ds.length + 1 + fs.length
      match r2.drop fs.length with
      | '%' :: _ => some (v, n + 1)
      | _ => some (v, n)
  | _ => none

/-- `rate_pattern.findall(s)` (values only), by non-overlapping left-to-right
scanning.  The fuel argument only bounds the recursion; every step either
consumes the `≥ 2` characters of a match or advances one character, so fuel
`s.length` is enough. -/
def findRatesAux : Nat → List Char → List Nat
  | 0, _ => []
  | _ + 1, [] => []
  | fuel + 1, c :: cs =>
    match tryRate (c :: cs) with
    | some (v, n) => v :: findRatesAux fuel ((c :: cs).drop n)
    | none => findRatesAux fuel cs

def findRates (s : List Char) : List Nat := findRatesAux s.length s

/-- `re.sub(r"\d*\.\d{1,2}%?", "", s)`: erase every rate match. -/
def removeRatesAux : Nat → List Char → List Char
  | 0, s => s
  | _ + 1, [] => []
  | fuel + 1, c :: cs =>
    match tryRate (c :: cs) with
    | some (_, n) => removeRatesAux fuel ((c :: cs).drop n)
    | none => c :: removeRatesAux fuel cs

def removeRates (s : List Char) : List Char := removeRatesAux s.length s

/-- `MAX_REASONABLE_RATE = 10.0` (line 18), in hundredths. -/
def MAX_REASONABLE_RATE : Nat := 1000

/-! ## Scheme rate records and the registry -/

/-- The per-scheme dictionary `rates = {bt: None for bt in BROKERAGE_TYPES}`:
one optional rate (in hundredths) per canonical tier. -/
structure Rates where
  first : Option Nat
  second : Option Nat
  third : Option Nat
  fourth : Option Nat
  longterm : Option Nat
deriving DecidableEq, Repr

def Rates.allNone : Rates := ⟨none, none, none, none, none⟩

/-- `rates.get(bt)` for a tier-name string: the dictionary has exactly the
five canonical keys, any other string yields `None`. -/
def rGet (r : Rates) (bt : List Char) : Option Nat :=
  if bt = "FIRST YEAR TRAIL".data then r.first
  else if bt = "SECOND YEAR TRAIL".data then r.second
  else if bt = "THIRD YEAR TRAIL".data then r.third
  else if bt = "FOURTH YEAR TRAIL".data then r.fourth
  else if bt = "LONGTERM YEAR TRAIL".data then r.longterm
  else none

/-- `rates[bt] = v` for a tier-name string (all assignments in the source use
one of the five canonical keys; anything else would extend the dict and is
never read back, so it is dropped). -/
def rSet (r : Rates) (bt : List Char) (v : Nat) : Rates :=
  if bt = "FIRST YEAR TRAIL".data then { r with first := some v }
  else if bt = "SECOND YEAR TRAIL".data then { r with second := some v }
  else if bt = "THIRD YEAR TRAIL".data then { r with third := some v }
  else if bt = "FOURTH YEAR TRAIL".data then { r with fourth := some v }
  else if bt = "LONGTERM YEAR TRAIL".data then { r with longterm := some v }
  else r

/-- Python truthiness of an optional float: `None` and `0.0` are falsy. -/
def truthyO : Option Nat → Bool
  | none => false
  | some v => v ≠ 0

/-- Lines 155–156 / 198–199:
`if rates.get("FOURTH YEAR TRAIL") and not rates.get("LONGTERM YEAR TRAIL"):
rates["LONGTERM YEAR TRAIL"] = rates["FOURTH YEAR TRAIL"]`. -/
def applyDefault (r : Rates) : Rates :=
  if truthyO r.fourth && !truthyO r.longterm then { r with longterm := r.fourth } else r

/-- Lines 158 / 200: `any(r for r in rates.values() if r is not None)` — the
generator yields the non-`None` values and `any` tests their truthiness, so a
record is kept only if some tier holds a *nonzero* rate. -/
def keepRecord (r : Rates) : Bool :=
  truthyO r.first || truthyO r.second || truthyO r.third ||
    truthyO r.fourth || truthyO r.longterm

/-- The scheme registry `scheme_map`: a Python dict as an insertion-ordered
association list with distinct keys. -/
abbrev Reg := List (List Char × Rates)

def Reg.lookup : Reg → List Char → Option Rates
  | [], _ => none
  | p :: ps, k => if p.1 = k then some p.2 else Reg.lookup ps k

/-- `scheme_map[k] = v`: overwrite in place if present, else append. -/
def Reg.insert (m : Reg) (k : List Char) (v : Rates) : Reg :=
  if m.any fun p => p.1 = k then
    m.map fun p => if p.1 = k then (k, v) else p
  else m ++ [(k, v)]

def Reg.isEmpty (m : Reg) : Bool := List.isEmpty m

def Reg.keys (m : Reg) : List (List Char) := m.map fun p => p.1

/-! ## Table extraction (`extract_scheme_data`, lines 109–159) -/

/-- A table as returned by `page.extract_tables()`: rows of optional cell
strings (`None` cells occur in ragged extractions). -/
abbrev Table := List (List (Option String))

/-- Header-cell preparation, line 117:
`normalize(str(cell)) if cell else ""` (a `None` or empty cell gives `""`,
which `normalize` also maps to `""`). -/
def headerCell : Option String → List Char
  | none => []
  | some s => normalize s.data

/-- `str(cell)` applied to a raw data cell with *no* falsiness guard
(line 136): a `None` cell really becomes the string `"None"`. -/
def cellRawStr : Option String → List Char
  | none => "None".data
  | some s => s.data

/-- Line 144: `str(row[col_idx]).strip() if row[col_idx] else ""`. -/
def cellText : Option String → List Char
  | none => []
  | some s => if s.data.isEmpty then [] else pyStrip s.data

/-- The column map `col_mapping`: a dict keyed by `"SCHEME"` and tier names.
Built by scanning the normalized header left to right (lines 118–128): a
column whose text contains `scheme`, `fund` or `name` is the scheme column;
otherwise the first matching brokerage pattern claims the column for its
tiers.  Later columns overwrite earlier entries for the same key. -/
def cmSet (cm : List (List Char × Nat)) (k : List Char) (i : Nat) : List (List Char × Nat) :=
  if cm.any fun p => p.1 = k then
    cm.map fun p => if p.1 = k then (k, i) else p
  else cm ++ [(k, i)]

def cmLookup : List (List Char × Nat) → List Char → Option Nat
  | [], _ => none
  | p :: ps, k => if p.1 = k then some p.2 else cmLookup ps k

def buildColMap (header : List (List Char)) : List (List Char × Nat) :=
  header.enum.foldl
    (fun cm ic =>
      let col := ic.2.map pyLower
      if containsSub "scheme".data col || containsSub "fund".data col ||
          containsSub "name".data col then
        cmSet cm "SCHEME".data ic.1
      else
        (tierTypes col).foldl (fun cm bt => cmSet cm bt ic.1) cm)
    []

/-- Line 149–151: parse the first rate of a cell and discard it above the
sanity ceiling (`if rate_value > MAX_REASONABLE_RATE: continue`). -/
def extractCell (cell : Option String) : Option Nat :=
  (findRates (cellText cell)).head?.bind fun v =>
    if MAX_REASONABLE_RATE < v then none else some v

/-- Lines 140–153: build the raw `rates` dict of one data row from the column
map, before the FOURTH→LONGTERM default. -/
def rowRawRates (cm : List (List Char × Nat)) (row : List (Option String)) : Rates :=
  cm.foldl
    (fun r p =>
      if p.1 = "SCHEME".data || row.length ≤ p.2 then r
      else
        match extractCell (row.getD p.2 none) with
        | some v => rSet r p.1 v
        | none => r)
    Rates.allNone

/-- The footer-marker test of lines 137 and 168:
`any(x in name for x in ["scheme name", "total", "aggregate"])`. -/
def footerHit (name : List Char) : Bool :=
  containsSub "scheme name".data name || containsSub "total".data name ||
    containsSub "aggregate".data name

/-- Lines 133–159: process one data row of a table whose scheme column is
`si`, updating the registry. -/
def processDataRow (cm : List (List Char × Nat)) (si : Nat) (m : Reg)
    (row : List (Option String)) : Reg :=
  if row.isEmpty || row.length ≤ si then m
  else
    let name := normalize (cellRawStr (row.getD si none))
    if name.isEmpty || footerHit name then m
    else
      let r := applyDefault (rowRawRates cm row)
      if keepRecord r then Reg.insert m name r else m

/-- Lines 117–159: process one (usable) table. -/
def processTable (m : Reg) (t : Table) : Reg :=
  let cm := buildColMap ((t.headD []).map headerCell)
  match cmLookup cm "SCHEME".data with
  | none => m
  | some si => (t.drop 1).foldl (processDataRow cm si) m

/-- Line 113: a table is usable (`not (not table or len(table) < 2)`) iff it
has at least a header row and one data row. -/
def usableTable (t : Table) : Bool := 2 ≤ t.length

/-- Lines 112–159: process the tables of one page, threading the per-attempt
`tables_found` flag (set as soon as a table with at least two rows is seen,
*before* the scheme-column check). -/
def procTables : Bool → Reg → List Table → Bool × Reg
  | tf, m, [] => (tf, m)
  | tf, m, t :: ts =>
    if usableTable t then procTables true (processTable m t) ts
    else procTables tf m ts

/-! ## Text fallback extraction (lines 161–201) -/

/-- `str.splitlines()` restricted to `\n` separators (the only line break
`pdfplumber.extract_text` emits). -/
def splitNL (s : List Char) : List (List Char) :=
  let step := fun (c : Char) (acc : List Char × List (List Char)) =>
    if c = '\n' then ([], acc.1 :: acc.2) else (c :: acc.1, acc.2)
  let r := s.foldr step ([], [])
  r.1 :: r.2

/-- One step of the rate-distribution loop of lines 184–195: assign one
extracted value `v` (already below the ceiling) given the tier labels
recognised on the current sub-line. -/
def assignRate (mbts : List (List Char)) (st : Rates × Nat) (v : Nat) : Rates × Nat :=
  if MAX_REASONABLE_RATE < v then st
  else if !mbts.isEmpty && st.2 < mbts.length then
    (mbts.foldl (fun r bt => rSet r bt v) st.1, st.2 + mbts.length)
  else if st.2 < BROKERAGE_TYPES.length then
    (rSet st.1 (BROKERAGE_TYPES.getD st.2 []) v, st.2 + 1)
  else st

/-- Lines 174–195: the raw rates accumulated for the candidate fund-name line
at index `i`, scanning the window of lines `i .. i+4`.  Each sub-line is
normalized; its recognised tier labels (first matching pattern only) and all
its numeric matches feed `assignRate`. -/
def textBlockRates (lines : List (List Char)) (i : Nat) : Rates :=
  (((lines.drop i).take BROKERAGE_TYPES.length).foldl
    (fun st raw =>
      let sub := normalize (pyStrip raw)
      (findRates sub).foldl (assignRate (tierTypes sub)) st)
    (Rates.allNone, 0)).1

/-- Lines 166–201: process the line at index `i` of the page text.  The line
is a candidate fund-name line iff (after normalization) it is non-empty, not
a footer marker, contains at least one rate match, still has a non-empty name
once the rate substrings are erased, and that name contains no tier keyword. -/
def processTextLine (lines : List (List Char)) (m : Reg) (i : Nat) : Reg :=
  let line := normalize (pyStrip (lines.getD i []))
  if line.isEmpty || footerHit line then m
  else
    let scheme := normalize (pyStrip (removeRates line))
    if !(findRates line).isEmpty && !scheme.isEmpty &&
        !(BROKERAGE_TYPES.any fun bt => containsSub (bt.map pyLower) scheme) then
      let r := applyDefault (textBlockRates lines i)
      if keepRecord r then Reg.insert m scheme r else m
    else m

/-- Lines 161–201: the text fallback over one page's extracted text
(`if text:` — an absent or empty text contributes nothing). -/
def procText (m : Reg) (t : Option String) : Reg :=
  match t with
  | none => m
  | some s =>
    if s.data.isEmpty then m
    else
      let lines := splitNL s.data
      (List.range lines.length).foldl (processTextLine lines) m

/-! ## Pages, decode attempts and the password loop (lines 99–216) -/

/-- One page of an opened document, as the extraction code sees it:
`page.extract_tables()` and `page.extract_text()`. -/
structure Page where
  tables : List Table
  text : Option String
deriving DecidableEq, Repr

/-- One successfully opened document.  `crash = true` models a decode attempt
in which `pdfplumber` raises somewhere after the listed pages were processed;
the broad `except Exception: pass` (line 213) then abandons the attempt, but
`scheme_map` — initialised *outside* the password loop (line 101) — keeps
everything accumulated so far. -/
structure Doc where
  pages : List Page
  crash : Bool
deriving DecidableEq, Repr

/-- Process all pages of an attempt (lines 109–201), threading the
per-attempt `tables_found` flag and the registry, and recording for each page
whether the text fallback ran (`if not tables_found or not scheme_map:`,
line 161 — evaluated after the page's tables). -/
def procPages : Bool → Reg → List Page → Bool × Reg × List Bool
  | tf, m, [] => (tf, m, [])
  | tf, m, p :: ps =>
    let r1 := procTables tf m p.tables
    let fb := !r1.1 || Reg.isEmpty r1.2
    let m2 := if fb then procText r1.2 p.text else r1.2
    let rest := procPages r1.1 m2 ps
    (rest.1, rest.2.1, fb :: rest.2.2)

/-- `SCHEME_VALIDATIONS` (lines 27–38), rates in hundredths. -/
def SCHEME_VALIDATIONS : List (List Char × List (List Char × Nat)) :=
  [("hsbc financial services fund".data, [("FOURTH YEAR TRAIL".data, 135)]),
   ("hsbc india export opportunities fund".data,
     [("THIRD YEAR TRAIL".data, 145), ("FOURTH YEAR TRAIL".data, 135)]),
   ("hsbc midcap fund".data,
     [("THIRD YEAR TRAIL".data, 115), ("FOURTH YEAR TRAIL".data, 105),
      ("LONGTERM YEAR TRAIL".data, 105)])]

/-- Lines 203–210: for each scheme of `SCHEME_VALIDATIONS` present in the
registry, force every listed tier to its mandated value (the dict value is
mutated in place, modelled by re-inserting the updated record). -/
def applyValidations (m : Reg) : Reg :=
  SCHEME_VALIDATIONS.foldl
    (fun m sv =>
      match Reg.lookup m sv.1 with
      | none => m
      | some r =>
        Reg.insert m sv.1
          (sv.2.foldl
            (fun r be => if rGet r be.1 ≠ some be.2 then rSet r be.1 be.2 else r)
            r))
    m

/-- The password loop of `extract_scheme_data` (lines 104–216).  Each list
entry is one decode attempt: `none` if `pdfplumber.open` raises for that
password, `some d` if the document opens.  The registry `m` is the single
`scheme_map` shared by all attempts.  A non-crashing attempt whose registry
is non-empty returns it (with validations applied) immediately; otherwise the
next password is tried; exhaustion returns the empty dict (line 216). -/
def extractLoop : Reg → List (Option Doc) → Reg
  | _, [] => []
  | m, none :: rest => extractLoop m rest
  | m, some d :: rest =>
    let r := procPages false m d.pages
    if d.crash then extractLoop r.2.1 rest
    else if Reg.isEmpty r.2.1 then extractLoop r.2.1 rest
    else applyValidations r.2.1

/-- `extract_scheme_data` (lines 99–216), over the per-password attempt
outcomes. -/
def extract_scheme_data (attempts : List (Option Doc)) : Reg :=
  extractLoop [] attempts

/-! ## Spreadsheet filling (`fill_excel`, lines 224–303)

The DataFrame is modelled as a column schema plus rows of cells.  Input cells are
strings; the two rate columns written by the program hold optional rates.
`pd.to_datetime(..., errors="coerce").dt.strftime("%d-%m-%Y")` is modelled on
ISO `yyyy-mm-dd` inputs (the documented pandas behaviour for that format);
anything else is modelled as the coerced `NaT` marker.  The claims proved
about `fill_excel` either do not depend on this conversion at all (the frame
property quantifies over非-date columns) or use a concrete ISO input. -/

inductive Cell where
  | str : String → Cell
  | rate : Option Nat → Cell
deriving DecidableEq, Repr

structure DF where
  cols : List String
  rows : List (List Cell)
deriving DecidableEq, Repr

/-- Index of the first column with the given label. -/
def idxOf? : List String → String → Option Nat
  | [], _ => none
  | n :: ns, c => if n = c then some 0 else (idxOf? ns c).map (· + 1)

def colIdx (df : DF) (c : String) : Option Nat :=
  idxOf? df.cols c

def getCol (df : DF) (c : String) : Option (List Cell) :=
  (colIdx df c).map fun i => df.rows.map fun row => row.getD i (Cell.str "")

/-- `df[c] = vals`: overwrite the column if the label exists, else append it. -/
def setCol (df : DF) (c : String) (vals : List Cell) : DF :=
  match colIdx df c with
  | some i => ⟨df.cols, (df.rows.zip vals).map fun rv => rv.1.set i rv.2⟩
  | none => ⟨df.cols ++ [c], (df.rows.zip vals).map fun rv => rv.1 ++ [rv.2]⟩

/-- `row.get(name, "")` followed by `str(...)`, for the input (string) cells. -/
def rowGetStr (cols : List String) (row : List Cell) (name : String) : String :=
  match idxOf? cols name with
  | none => ""
  | some i =>
    match row.getD i (Cell.str "") with
    | Cell.str v => v
    | Cell.rate _ => ""

/-- Line 231: the date columns, `"date" in col.lower() and "brokerage" not in
col.lower()`; only the first one is converted. -/
def dateCols (df : DF) : List String :=
  df.cols.filter fun n =>
    containsSub "date".data (n.data.map pyLower) &&
      !containsSub "brokerage".data (n.data.map pyLower)

def allDigits (s : List Char) : Bool := s.all Char.isDigit

/-- Split a character list at every occurrence of `sep`. -/
def splitOnChar (sep : Char) (s : List Char) : List (List Char) :=
  let r := s.foldr
    (fun c acc => if c = sep then ([], acc.1 :: acc.2) else (c :: acc.1, acc.2))
    ([], [])
  r.1 :: r.2

/-- Model of `pd.to_datetime(v, errors="coerce").strftime("%d-%m-%Y")` on one
value, restricted to ISO `yyyy-mm-dd` input; other inputs coerce to `NaT`. -/
def pyDateFmt (v : String) : String :=
  match splitOnChar '-' v.data with
  | [y, m, d] =>
    if y.length = 4 && m.length = 2 && d.length = 2 &&
        allDigits y && allDigits m && allDigits d &&
        1 ≤ digitsVal m && digitsVal m ≤ 12 &&
        1 ≤ digitsVal d && digitsVal d ≤ 31 then
      String.mk (d ++ '-' :: m ++ '-' :: y)
    else "NaT"
  | _ => "NaT"

def convCell : Cell → Cell
  | Cell.str v => Cell.str (pyDateFmt v)
  | c => c

/-- Lines 232–233: rewrite the first date column in place. -/
def convertDateCol (df : DF) : DF :=
  match dateCols df with
  | [] => df
  | c :: _ =>
    match colIdx df c with
    | none => df
    | some i => ⟨df.cols, df.rows.map fun row => row.modify convCell i⟩

/-- The value side of `brokerage_type_map` (lines 236–253): a single
standardized tier name or a list of tier names. -/
inductive BTT where
  | str : List Char → BTT
  | lst : List (List Char) → BTT

/-- `brokerage_type_map` (lines 236–253). -/
def brokerage_type_map : List (List Char × BTT) :=
  [("FIRST YEAR TRAIL".data, BTT.str "FIRST YEAR TRAIL".data),
   ("SECOND YEAR TRAIL".data, BTT.str "SECOND YEAR TRAIL".data),
   ("THIRD YEAR TRAIL".data, BTT.str "THIRD YEAR TRAIL".data),
   ("FOURTH YEAR TRAIL".data, BTT.str "FOURTH YEAR TRAIL".data),
   ("LONGTERM YEAR TRAIL".data, BTT.str "LONGTERM YEAR TRAIL".data),
   ("FOURTH YEAR".data, BTT.str "FOURTH YEAR TRAIL".data),
   ("4TH YEAR TRAIL".data, BTT.str "FOURTH YEAR TRAIL".data),
   ("4TH YEAR".data, BTT.str "FOURTH YEAR TRAIL".data),
   ("LONG TERM TRAIL".data, BTT.str "LONGTERM YEAR TRAIL".data),
   ("LONG TERM".data, BTT.str "LONGTERM YEAR TRAIL".data),
   ("1 TO 3 YEARS TRAIL".data, BTT.lst ["FIRST YEAR TRAIL".data, "SECOND YEAR TRAIL".data, "THIRD YEAR TRAIL".data]),
   ("1-3 YEARS TRAIL".data, BTT.lst ["FIRST YEAR TRAIL".data, "SECOND YEAR TRAIL".data, "THIRD YEAR TRAIL".data]),
   ("1 TO 3 YEARS".data, BTT.lst ["FIRST YEAR TRAIL".data, "SECOND YEAR TRAIL".data, "THIRD YEAR TRAIL".data]),
   ("1-3 YEARS".data, BTT.lst ["FIRST YEAR TRAIL".data, "SECOND YEAR TRAIL".data, "THIRD YEAR TRAIL".data]),
   ("TRAIL 1-3".data, BTT.lst ["FIRST YEAR TRAIL".data, "SECOND YEAR TRAIL".data, "THIRD YEAR TRAIL".data]),
   ("TRAIL YEARS 1-3".data, BTT.lst ["FIRST YEAR TRAIL".data, "SECOND YEAR TRAIL".data, "THIRD YEAR TRAIL".data])]

def bttLookup : List (List Char × BTT) → List Char → Option BTT
  | [], _ => none
  | p :: ps, k => if p.1 = k then some p.2 else bttLookup ps k

/-- `fuzzywuzzy.process.extractOne(query, keys, score_cutoff=90)`, modelled
over an abstract similarity scorer `score` (the library's WRatio is external
code; its documented contract is: return the best-scoring choice — the first
one on ties — provided its score reaches the cutoff, else `None`). -/
def extractOne (score : List Char → List Char → Nat) (q : List Char)
    (keys : List (List Char)) : Option (List Char) :=
  let best := keys.foldl
    (fun acc k =>
      match acc with
      | none => some (k, score q k)
      | some bs => if score q k > bs.2 then some (k, score q k) else acc)
    none
  match best with
  | none => none
  | some bs => if 90 ≤ bs.2 then some bs.1 else none

/-- The tier lookup of lines 271–279 / 286–293: a list of tiers returns the
first non-`None` rate in order; a single tier returns its rate (which may be
`None`). -/
def lookupStd (r : Rates) : BTT → Option Nat
  | BTT.str s => rGet r s
  | BTT.lst l => l.findSome? fun bt => rGet r bt

/-- The normalized scheme name of a spreadsheet row (line 258). -/
def schemeOf (cols : List String) (row : List Cell) : List Char :=
  normalize (rowGetStr cols row "Schemename").data

/-- `get_brokerage` (lines 255–295) against the normalized-keys registry
`npk` and an abstract fuzzy scorer. -/
def get_brokerage (score : List Char → List Char → Nat) (npk : Reg)
    (cols : List String) (row : List Cell) : Option Nat :=
  let scheme := schemeOf cols row
  let btRaw := (pyStrip (rowGetStr cols row "BrokerageName").data).map pyUpper
  let std := match bttLookup brokerage_type_map btRaw with
    | some t => t
    | none => BTT.str btRaw
  let stdBad := match std with
    | BTT.lst _ => false
    | BTT.str s => !BROKERAGE_TYPES.any fun bt => bt = s
  let stdFalsy := match std with
    | BTT.lst l => l.isEmpty
    | BTT.str s => s.isEmpty
  if stdBad then none
  else if scheme.isEmpty || stdFalsy then none
  else
    match Reg.lookup npk scheme with
    | some r => lookupStd r std
    | none =>
      match extractOne score scheme (Reg.keys npk) with
      | none => none
      | some mk =>
        match Reg.lookup npk mk with
        | some r => lookupStd r std
        | none => none

/-- Line 235: `normalized_pdf_keys = {normalize(k): v for k, v in
scheme_map.items()}` (later duplicates overwrite earlier ones). -/
def buildNpk (m : Reg) : Reg :=
  m.foldl (fun acc p => Reg.insert acc (normalize p.1) p.2) []

/-- `fill_excel` (lines 224–303), minus file I/O: convert the first date
column, resolve every row, then write the resolved rates to `T15` and its
duplicate `B15`. -/
def fill_excel (score : List Char → List Char → Nat) (m : Reg) (df : DF) : DF :=
  let df1 := convertDateCol df
  let npk := buildNpk m
  let t := df1.rows.map fun row => Cell.rate (get_brokerage score npk df1.cols row)
  let df2 := setCol df1 "T15" t
  let t15 := (getCol df2 "T15").getD []
  setCol df2 "B15" t15

/-! ## Invariant predicates and concrete scenario data -/

/-- Every present rate is at most the sanity ceiling (10.0 = 1000 hundredths). -/
def rateLE : Option Nat → Prop
  | none => True
  | some v => v ≤ MAX_REASONABLE_RATE

def ratesLE (r : Rates) : Prop :=
  rateLE r.first ∧ rateLE r.second ∧ rateLE r.third ∧ rateLE r.fourth ∧ rateLE r.longterm

def regLE (m : Reg) : Prop := ∀ p ∈ m, ratesLE p.2

/-- Every tier of the record is either unextracted or extracted as `0.0`. -/
def allZeroOrNone (r : Rates) : Prop :=
  (r.first = none ∨ r.first = some 0) ∧ (r.second = none ∨ r.second = some 0) ∧
  (r.third = none ∨ r.third = some 0) ∧ (r.fourth = none ∨ r.fourth = some 0) ∧
  (r.longterm = none ∨ r.longterm = some 0)

instance (r : Rates) : Decidable (allZeroOrNone r) := by
  unfold allZeroOrNone
  infer_instance

/-- Scenario A of the spec (§8): one page, one table, header
`["Scheme Name","1st Yr Trail","2nd Yr Trail"]`, one data row
`["ABC Fund","0.50%","0.30%"]`. -/
def tableA : Table :=
  [[some "Scheme Name", some "1st Yr Trail", some "2nd Yr Trail"],
   [some "ABC Fund", some "0.50%", some "0.30%"]]

def docA : Doc := ⟨[⟨[tableA], none⟩], false⟩

/-- A table whose data row carries a fourth-year rate of exactly `0.00`. -/
def tableBeta : Table :=
  [[some "Scheme Name", some "1st Yr Trail", some "4th Yr Trail"],
   [some "Beta Fund", some "0.50%", some "0.00%"]]

def docBeta : Doc := ⟨[⟨[tableBeta], none⟩], false⟩

/-- The record `extract_scheme_data [some docBeta]` stores for `beta fund`. -/
def betaRec : Rates := ⟨some 50, none, none, some 0, none⟩

/-- A one-row table for the attempt-carryover and fallback scenarios. -/
def tableAlpha : Table :=
  [[some "Scheme Name", some "1st Yr Trail"],
   [some "Alpha Fund", some "0.60%"]]

/-- An attempt that extracts `alpha fund` and then crashes mid-document. -/
def crashedDoc : Doc := ⟨[⟨[tableAlpha], none⟩], true⟩

/-- An attempt that opens fine but has no pages at all. -/
def emptyDoc : Doc := ⟨[], false⟩

/-- A two-page document: page 1 carries a usable table, page 2 has no tables
but does have extractable text. -/
def twoPageDoc : Doc :=
  ⟨[⟨[tableAlpha], none⟩, ⟨[], some "XYZ Fund 0.70"⟩], false⟩

/-- A spreadsheet with a date column (ISO-formatted value), used to exhibit
the date-column rewrite of `fill_excel`. -/
def dateDF : DF :=
  ⟨["Date", "Schemename", "BrokerageName"],
   [[Cell.str "2024-01-15", Cell.str "ABC Fund", Cell.str "FIRST YEAR TRAIL"]]⟩

/-- The constantly-zero similarity scorer (concrete witness scorer). -/
def zeroScore : List Char → List Char → Nat := fun _ _ => 0

/-- The registry of scenario A, as a value. -/
def regA : Reg := [("abc fund".data, ⟨some 50, some 30, none, none, none⟩)]

/-! ## Theorems -/

/-- **C1.** End-to-end scenario A: a document with exactly one page holding
one table with header `["Scheme Name","1st Yr Trail","2nd Yr Trail"]` and the
single data row `["ABC Fund","0.50%","0.30%"]` extracts to the registry
`{"abc fund": {FIRST: 0.50, SECOND: 0.30, THIRD: None, FOURTH: None,
LONGTERM: None}}` (rates in hundredths). -/
theorem c1_scenario_a :
    extract_scheme_data [some docA] =
      [("abc fund".data, ⟨some 50, some 30, none, none, none⟩)] := by
  decide

/-- **C3.** Evaluation of the tier classifier at the claim's compound-range
forms.  The forms `"1-3"` and `"trail 1-3"` do map to the ordered triple, but
`"1 to 3"` (with or without the tolerated suffixes) maps to *nothing*: in the
source pattern `1\s*[-to]\s*3` the bracket expression `[-to]` is a character
class matching one single character (`-`, `t` or `o`), never the word `to`,
so no pattern in `BROKERAGE_COLUMN_PATTERNS` matches a `1 to 3` fragment.
The spec (and the evident intent of the pattern) says it should yield
FIRST/SECOND/THIRD. -/
theorem c3_code_bug_eval :
    tierTypes "1 to 3 years trail".data = [] ∧
    tierTypes "1 to 3 years".data = [] ∧
    tierTypes "1-3 years".data =
      ["FIRST YEAR TRAIL".data, "SECOND YEAR TRAIL".data, "THIRD YEAR TRAIL".data] ∧
    tierTypes "trail 1-3".data =
      ["FIRST YEAR TRAIL".data, "SECOND YEAR TRAIL".data, "THIRD YEAR TRAIL".data] := by
  decide

/-- **C4 (counterexample).** The claim says the text fallback runs iff no
table was found *on that page* or the registry so far is empty.  On
`twoPageDoc`, page 2 has no tables at all and the registry is non-empty, yet
the fallback does not run on page 2 (its flag is `false`, and the fund
`xyz fund` present in page 2's text is not extracted): `tables_found` is
cumulative over the whole attempt, not per page. -/
theorem c4_counterexample :
    (procPages false [] twoPageDoc.pages).2.2 = [false, false] ∧
    (twoPageDoc.pages.getD 1 ⟨[], none⟩).tables = [] ∧
    Reg.lookup (extract_scheme_data [some twoPageDoc]) "xyz fund".data = none ∧
    Reg.lookup (extract_scheme_data [some twoPageDoc]) "alpha fund".data ≠ none := by
  decide

/-- **C5 (counterexample).** `scheme_map` is created once, outside the
password loop: an attempt that crashes after extracting `alpha fund` leaves
its records in place, and the next attempt — which opens a document with *no
pages at all* and hence builds nothing itself — returns a registry containing
the abandoned attempt's record.  Under the claim, records of an abandoned
attempt are never carried into a later attempt's registry, so this run would
have to return the empty registry. -/
theorem c5_counterexample :
    extract_scheme_data [some crashedDoc, some emptyDoc] =
      [("alpha fund".data, ⟨some 60, none, none, none, none⟩)] ∧
    crashedDoc.crash = true ∧ emptyDoc.pages = [] ∧
    extract_scheme_data [some emptyDoc] = [] := by
  decide

/-- **C7 (counterexample).** A data row with an extracted FOURTH-year rate of
exactly `0.00` (and a nonzero first-year rate, so the record is retained):
FOURTH is set (`some 0`) and LONGTERM was not independently extracted, yet
the stored LONGTERM (`none`) differs from the stored FOURTH — the default of
line 155 tests Python truthiness, and `0.0` is falsy. -/
theorem c7_counterexample :
    Reg.lookup (extract_scheme_data [some docBeta]) "beta fund".data = some betaRec ∧
    betaRec.fourth = some 0 ∧ betaRec.longterm = none ∧
    betaRec.longterm ≠ betaRec.fourth := by
  decide

/-- **C2 (counterexample).** `fill_excel` does not pass every original
column through unchanged: the first column whose name contains `date` (and
not `brokerage`) is rewritten by the `pd.to_datetime(...).strftime` step.
On `dateDF` the `Date` cell `"2024-01-15"` becomes `"15-01-2024"`, and
`Date` is neither of the two rate columns. -/
theorem c2_counterexample :
    getCol (fill_excel zeroScore [] dateDF) "Date" = some [Cell.str "15-01-2024"] ∧
    getCol dateDF "Date" = some [Cell.str "2024-01-15"] ∧
    "Date" ≠ "T15" ∧ "Date" ≠ "B15" := by
  decide

/-- Generic fold invariant, used throughout the registry proofs. -/
theorem foldlInv {α : Type} {β : Type} (P : α → Prop) (f : α → β → α) :
    ∀ (l : List β) (a : α), P a → (∀ x b, b ∈ l → P x → P (f x b)) → P (l.foldl f a) := by
  intro l
  induction l with
  | nil => intro a h _; exact h
  | cons b bs ih =>
    intro a h hs
    exact ih (f a b) (hs a b (List.mem_cons_self b bs) h)
      fun x c hc hx => hs x c (List.mem_cons_of_mem b hc) hx

theorem truthyO_of_zn {o : Option Nat} (h : o = none ∨ o = some 0) :
    truthyO o = false := by
  rcases h with rfl | rfl <;> rfl

theorem applyDefault_of_fourth_zn {r : Rates} (h : r.fourth = none ∨ r.fourth = some 0) :
    applyDefault r = r := by
  unfold applyDefault
  rw [truthyO_of_zn h]
  simp

theorem keepRecord_of_allZero {r : Rates} (h : allZeroOrNone r) : keepRecord r = false := by
  obtain ⟨h1, h2, h3, h4, h5⟩ := h
  unfold keepRecord
  rw [truthyO_of_zn h1, truthyO_of_zn h2, truthyO_of_zn h3, truthyO_of_zn h4,
    truthyO_of_zn h5]
  rfl

/-- **C10.** A rate of exactly `0.0` behaves as absent during registry
assembly: (i) a table row all of whose extracted rates are `0.0`-or-absent
creates no record; (ii) likewise for a text block; (iii) a FOURTH-year rate
of `0.0` never triggers the LONGTERM default; (iv) an independently extracted
LONGTERM of `0.0` is overwritten by a nonzero FOURTH-year rate. -/
theorem c10_zero_as_absent :
    (∀ cm si m row, allZeroOrNone (rowRawRates cm row) →
      processDataRow cm si m row = m)
    ∧ (∀ lines m i, allZeroOrNone (textBlockRates lines i) →
      processTextLine lines m i = m)
    ∧ (∀ r : Rates, r.fourth = some 0 → applyDefault r = r)
    ∧ (∀ (r : Rates) (v : Nat), r.longterm = some 0 → r.fourth = some v → v ≠ 0 →
      (applyDefault r).longterm = r.fourth) := by
  refine ⟨?_, ?_, ?_, ?_⟩
  · intro cm si m row h
    have h1 := applyDefault_of_fourth_zn h.2.2.2.1
    have h2 := keepRecord_of_allZero h
    simp [processDataRow, h1, h2]
  · intro lines m i h
    have h1 := applyDefault_of_fourth_zn h.2.2.2.1
    have h2 := keepRecord_of_allZero h
    simp [processTextLine, h1, h2]
  · intro r h
    exact applyDefault_of_fourth_zn (Or.inr h)
  · intro r v hl hf hv
    unfold applyDefault
    rw [hf, hl]
    simp [truthyO, hv]

/-- Witness for C10: concrete instances of all four conjuncts.  The table row
`["K Fund", "0.00%"]` under a FIRST-column map extracts only `0.0` and leaves
the registry untouched; likewise the text line `"eta fund 0.00"`. -/
theorem c10_witness :
    processDataRow [("SCHEME".data, 0), ("FIRST YEAR TRAIL".data, 1)] 0 []
        [some "K Fund", some "0.00%"] = [] ∧
    processTextLine ["eta fund 0.00".data] [] 0 = [] ∧
    applyDefault ⟨some 50, none, none, some 0, none⟩ = ⟨some 50, none, none, some 0, none⟩ ∧
    (applyDefault ⟨none, none, none, some 40, some 0⟩).longterm = some 40 := by
  refine ⟨?_, ?_, ?_, ?_⟩
  · exact c10_zero_as_absent.1 _ 0 [] _ (by decide)
  · exact c10_zero_as_absent.2.1 _ [] 0 (by decide)
  · exact c10_zero_as_absent.2.2.1 _ rfl
  · exact c10_zero_as_absent.2.2.2 _ 40 rfl rfl (by decide)

theorem applyDefault_longterm {r : Rates} (h1 : truthyO r.fourth = true)
    (h2 : truthyO r.longterm = false) : (applyDefault r).longterm = r.fourth := by
  unfold applyDefault
  rw [h1, h2]
  simp

/-- **C7 (amended).** For every record placed into the registry by either
extractor, if the extracted FOURTH-year rate is truthy (present and nonzero)
and the extracted LONGTERM rate is not truthy (absent or exactly `0.0`), the
record's LONGTERM is set equal to its FOURTH (both extractors store
`applyDefault` of their raw rates; the original claim's "is set" must be
strengthened to "is set and nonzero", and "not independently extracted" to
"not extracted as a nonzero value", because the default tests Python
truthiness and `0.0` is falsy — see the counterexample). -/
theorem c7_amended (cm : List (List Char × Nat)) (row : List (Option String))
    (lines : List (List Char)) (i : Nat) :
    (truthyO (rowRawRates cm row).fourth = true →
      truthyO (rowRawRates cm row).longterm = false →
      (applyDefault (rowRawRates cm row)).longterm = (rowRawRates cm row).fourth)
    ∧ (truthyO (textBlockRates lines i).fourth = true →
      truthyO (textBlockRates lines i).longterm = false →
      (applyDefault (textBlockRates lines i)).longterm = (textBlockRates lines i).fourth) :=
  ⟨fun h1 h2 => applyDefault_longterm h1 h2, fun h1 h2 => applyDefault_longterm h1 h2⟩

/-- Witness for C7 (amended): a table row extracting FIRST `0.60`/FOURTH
`0.70` (no LONGTERM column) gets LONGTERM defaulted to FOURTH, and the text
block `"zeta fund 0.50 0.40 0.30 0.20"` fills tiers positionally and gets
LONGTERM = FOURTH = `0.20`. -/
theorem c7_amended_witness :
    (applyDefault (rowRawRates [("SCHEME".data, 0), ("FOURTH YEAR TRAIL".data, 1)]
        [some "K Fund", some "0.70%"])).longterm =
      (rowRawRates [("SCHEME".data, 0), ("FOURTH YEAR TRAIL".data, 1)]
        [some "K Fund", some "0.70%"]).fourth ∧
    (applyDefault (textBlockRates ["zeta fund 0.50 0.40 0.30 0.20".data] 0)).longterm =
      (textBlockRates ["zeta fund 0.50 0.40 0.30 0.20".data] 0).fourth := by
  constructor
  · exact (c7_amended [("SCHEME".data, 0), ("FOURTH YEAR TRAIL".data, 1)]
      [some "K Fund", some "0.70%"] [] 0).1 (by decide) (by decide)
  · exact (c7_amended [] [] ["zeta fund 0.50 0.40 0.30 0.20".data] 0).2
      (by decide) (by decide)

/-- **C5 (amended).** The registry is *not* reset between decode attempts:
(i) an attempt that crashes passes its accumulated registry (including
everything it extracted before crashing) on to the following attempts; (ii)
the surviving part of the original claim: the first attempt that completes
without error with a non-empty accumulated registry returns it immediately
(with overrides applied), and later credential candidates are never tried. -/
theorem c5_amended (m : Reg) (d : Doc) (rest rest' : List (Option Doc)) :
    (d.crash = true →
      extractLoop m (some d :: rest) = extractLoop (procPages false m d.pages).2.1 rest)
    ∧ (d.crash = false → Reg.isEmpty (procPages false m d.pages).2.1 = false →
      extractLoop m (some d :: rest) = applyValidations (procPages false m d.pages).2.1
      ∧ extractLoop m (some d :: rest) = extractLoop m (some d :: rest')) := by
  constructor
  · intro hc
    simp [extractLoop, hc]
  · intro hc he
    constructor <;> simp [extractLoop, hc, he]

/-- Witness for C5 (amended): the crashed attempt `crashedDoc` hands
`alpha fund` over to the rest of the loop, and the clean attempt `docA`
returns its registry immediately regardless of the candidates behind it. -/
theorem c5_amended_witness :
    extractLoop [] [some crashedDoc] =
      extractLoop (procPages false [] crashedDoc.pages).2.1 [] ∧
    extractLoop [] [some docA] = applyValidations (procPages false [] docA.pages).2.1 ∧
    extractLoop [] [some docA] = extractLoop [] [some docA, some crashedDoc] := by
  refine ⟨(c5_amended [] crashedDoc [] []).1 rfl, ?_, ?_⟩
  · exact ((c5_amended [] docA [] [some crashedDoc]).2 rfl (by decide)).1
  · exact ((c5_amended [] docA [] [some crashedDoc]).2 rfl (by decide)).2

theorem regLE_nil : regLE [] := by
  intro p hp
  cases hp

theorem extractCell_le {c : Option String} {v : Nat} (h : extractCell c = some v) :
    v ≤ MAX_REASONABLE_RATE := by
  unfold extractCell at h
  cases hf : (findRates (cellText c)).head? with
  | none => rw [hf] at h; simp at h
  | some w =>
    rw [hf] at h
    rw [Option.some_bind] at h
    split at h
    · simp at h
    · rename_i hw
      cases h
      omega

theorem ratesLE_allNone : ratesLE Rates.allNone :=
  ⟨trivial, trivial, trivial, trivial, trivial⟩

theorem rSet_le {r : Rates} {bt : List Char} {v : Nat} (hr : ratesLE r)
    (hv : v ≤ MAX_REASONABLE_RATE) : ratesLE (rSet r bt v) := by
  obtain ⟨h1, h2, h3, h4, h5⟩ := hr
  unfold rSet
  split_ifs <;> exact ⟨by first | exact hv | assumption, by first | exact hv | assumption,
    by first | exact hv | assumption, by first | exact hv | assumption,
    by first | exact hv | assumption⟩

theorem applyDefault_le {r : Rates} (hr : ratesLE r) : ratesLE (applyDefault r) := by
  obtain ⟨h1, h2, h3, h4, h5⟩ := hr
  unfold applyDefault
  split
  · exact ⟨h1, h2, h3, h4, h4⟩
  · exact ⟨h1, h2, h3, h4, h5⟩

theorem rowRawRates_le (cm : List (List Char × Nat)) (row : List (Option String)) :
    ratesLE (rowRawRates cm row) := by
  unfold rowRawRates
  refine foldlInv ratesLE _ cm Rates.allNone ratesLE_allNone ?_
  intro x b _ hx
  split
  · exact hx
  · cases h : extractCell (row.getD b.2 none) with
    | none => simp only [h]; exact hx
    | some v => simp only [h]; exact rSet_le hx (extractCell_le h)

theorem regLE_insert {m : Reg} {k : List Char} {v : Rates} (hm : regLE m)
    (hv : ratesLE v) : regLE (Reg.insert m k v) := by
  unfold Reg.insert
  split
  · intro p hp
    rcases List.mem_map.mp hp with ⟨q, hq, rfl⟩
    split
    · exact hv
    · exact hm q hq
  · intro p hp
    rcases List.mem_append.mp hp with h | h
    · exact hm p h
    · rcases List.mem_singleton.mp h with rfl
      exact hv

theorem processDataRow_le {cm : List (List Char × Nat)} {si : Nat} {m : Reg}
    {row : List (Option String)} (hm : regLE m) : regLE (processDataRow cm si m row) := by
  unfold processDataRow
  dsimp only
  split
  · exact hm
  · split
    · exact hm
    · split
      · exact regLE_insert hm (applyDefault_le (rowRawRates_le cm row))
      · exact hm

theorem processTable_le {m : Reg} {t : Table} (hm : regLE m) :
    regLE (processTable m t) := by
  unfold processTable
  dsimp only
  split
  · exact hm
  · exact foldlInv regLE _ _ m hm fun x b _ hx => processDataRow_le hx

theorem procTables_le {ts : List Table} :
    ∀ {tf : Bool} {m : Reg}, regLE m → regLE (procTables tf m ts).2 := by
  induction ts with
  | nil => intro tf m hm; exact hm
  | cons t ts ih =>
    intro tf m hm
    unfold procTables
    split
    · exact ih (processTable_le hm)
    · exact ih hm

theorem assignRate_le {mbts : List (List Char)} {st : Rates × Nat} {v : Nat}
    (hs : ratesLE st.1) : ratesLE (assignRate mbts st v).1 := by
  unfold assignRate
  split
  · exact hs
  · rename_i hv
    split
    · exact foldlInv (fun r => ratesLE r) _ mbts st.1 hs
        fun x b _ hx => rSet_le hx (by omega)
    · split
      · exact rSet_le hs (by omega)
      · exact hs

theorem textBlockRates_le (lines : List (List Char)) (i : Nat) :
    ratesLE (textBlockRates lines i) := by
  unfold textBlockRates
  refine foldlInv (fun st : Rates × Nat => ratesLE st.1) _ _ _ ratesLE_allNone ?_
  intro x b _ hx
  exact foldlInv (fun st : Rates × Nat => ratesLE st.1) _ _ x
    hx fun y v _ hy => assignRate_le hy

theorem processTextLine_le {lines : List (List Char)} {m : Reg} {i : Nat}
    (hm : regLE m) : regLE (processTextLine lines m i) := by
  unfold processTextLine
  dsimp only
  split
  · exact hm
  · split
    · split
      · exact regLE_insert hm (applyDefault_le (textBlockRates_le lines i))
      · exact hm
    · exact hm

theorem procText_le {m : Reg} {t : Option String} (hm : regLE m) :
    regLE (procText m t) := by
  unfold procText
  split
  · exact hm
  · split
    · exact hm
    · exact foldlInv regLE _ _ m hm fun x b _ hx => processTextLine_le hx

theorem procPages_le {pages : List Page} :
    ∀ {tf : Bool} {m : Reg}, regLE m → regLE (procPages tf m pages).2.1 := by
  induction pages with
  | nil => intro tf m hm; exact hm
  | cons p ps ih =>
    intro tf m hm
    unfold procPages
    refine ih ?_
    split
    · exact procText_le (procTables_le hm)
    · exact procTables_le hm

theorem lookup_ratesLE {m : Reg} {k : List Char} {r : Rates} (hm : regLE m)
    (h : Reg.lookup m k = some r) : ratesLE r := by
  induction m with
  | nil => simp [Reg.lookup] at h
  | cons p ps ih =>
    unfold Reg.lookup at h
    split at h
    · cases h
      exact hm p (List.mem_cons_self p ps)
    · exact ih (fun q hq => hm q (List.mem_cons_of_mem p hq)) h

theorem rGet_le {r : Rates} {bt : List Char} (hr : ratesLE r) : rateLE (rGet r bt) := by
  obtain ⟨h1, h2, h3, h4, h5⟩ := hr
  unfold rGet
  split_ifs <;> first | assumption | trivial

theorem applyValidations_le {m : Reg} (hm : regLE m) : regLE (applyValidations m) := by
  have hall : ∀ sv ∈ SCHEME_VALIDATIONS, ∀ be ∈ sv.2, be.2 ≤ MAX_REASONABLE_RATE := by
    decide
  unfold applyValidations
  refine foldlInv regLE _ _ m hm ?_
  intro x sv hsv hx
  cases hl : Reg.lookup x sv.1 with
  | none => simp only [hl]; exact hx
  | some r =>
    simp only [hl]
    refine regLE_insert hx ?_
    refine foldlInv ratesLE _ _ r (lookup_ratesLE hx hl) ?_
    intro y be hbe hy
    split
    · exact rSet_le hy (hall sv hsv be hbe)
    · exact hy

theorem extractLoop_le {attempts : List (Option Doc)} :
    ∀ {m : Reg}, regLE m → regLE (extractLoop m attempts) := by
  induction attempts with
  | nil => intro m _; exact regLE_nil
  | cons a rest ih =>
    intro m hm
    cases a with
    | none => exact ih hm
    | some d =>
      unfold extractLoop
      dsimp only
      split
      · exact ih (procPages_le hm)
      · split
        · exact ih (procPages_le hm)
        · exact applyValidations_le (procPages_le hm)

/-- **C6.** In every finished registry (defaults and correction overrides
applied), every rate stored in every record is at most the sanity ceiling
10.0 (1000 hundredths): rates above the ceiling are discarded at both
extraction sites, the LONGTERM default only copies an already-admitted value,
and every correction-override constant is below the ceiling. -/
theorem c6_sanity_ceiling (attempts : List (Option Doc)) (n : List Char) (r : Rates)
    (h : Reg.lookup (extract_scheme_data attempts) n = some r) : ratesLE r :=
  lookup_ratesLE (extractLoop_le regLE_nil) h

/-- Witness for C6: the scenario-A registry record satisfies the ceiling. -/
theorem c6_witness : ratesLE ⟨some 50, some 30, none, none, none⟩ :=
  c6_sanity_ceiling [some docA] "abc fund".data _ (by decide)

theorem extractOne_below (score : List Char → List Char → Nat) (q : List Char)
    (keys : List (List Char)) (h : ∀ k ∈ keys, score q k < 90) :
    extractOne score q keys = none := by
  unfold extractOne
  dsimp only
  have hinv : (∀ bs, (keys.foldl
      (fun acc k =>
        match acc with
        | none => some (k, score q k)
        | some bs => if score q k > bs.2 then some (k, score q k) else acc)
      none) = some bs → bs.1 ∈ keys ∧ bs.2 = score q bs.1) := by
    have := foldlInv
      (fun acc : Option (List Char × Nat) =>
        ∀ bs, acc = some bs → bs.1 ∈ keys ∧ bs.2 = score q bs.1)
      (fun acc k =>
        match acc with
        | none => some (k, score q k)
        | some bs => if score q k > bs.2 then some (k, score q k) else acc)
      keys none (by intro bs hbs; cases hbs) ?_
    · exact this
    · intro x b hb hx
      cases x with
      | none => intro bs hbs; cases hbs; exact ⟨hb, rfl⟩
      | some old =>
        intro bs hbs
        dsimp only at hbs
        split at hbs
        · cases hbs; exact ⟨hb, rfl⟩
        · exact hx bs hbs
  cases hf : (keys.foldl
      (fun acc k =>
        match acc with
        | none => some (k, score q k)
        | some bs => if score q k > bs.2 then some (k, score q k) else acc)
      none) with
  | none => rfl
  | some bs =>
    obtain ⟨hmem, hval⟩ := hinv bs hf
    have : ¬ 90 ≤ bs.2 := by
      rw [hval]
      have := h bs.1 hmem
      omega
    simp [this]

/-- **C8.** If a spreadsheet row's normalized fund name is not an exact
registry key and every registry key scores below the acceptance threshold 90
under the similarity scorer, `get_brokerage` resolves to `none` — never to a
rate of the best-scoring (or any other) key. -/
theorem c8_below_cutoff (score : List Char → List Char → Nat) (npk : Reg)
    (cols : List String) (row : List Cell)
    (hex : Reg.lookup npk (schemeOf cols row) = none)
    (hsc : ∀ k ∈ Reg.keys npk, score (schemeOf cols row) k < 90) :
    get_brokerage score npk cols row = none := by
  unfold get_brokerage
  dsimp only
  split
  · rfl
  · split
    · rfl
    · rw [hex, extractOne_below score _ _ hsc]

/-- Witness for C8: under the constantly-zero scorer, a fund absent from the
scenario-A registry resolves to `none`. -/
theorem c8_witness :
    get_brokerage zeroScore regA ["Schemename", "BrokerageName"]
      [Cell.str "Unrelated Fund", Cell.str "FIRST YEAR TRAIL"] = none :=
  c8_below_cutoff zeroScore regA ["Schemename", "BrokerageName"]
    [Cell.str "Unrelated Fund", Cell.str "FIRST YEAR TRAIL"]
    (by decide) (by decide)

theorem procTables_fst (ts : List Table) :
    ∀ (tf : Bool) (m : Reg), (procTables tf m ts).1 = (tf || ts.any usableTable) := by
  induction ts with
  | nil => intro tf m; simp [procTables]
  | cons t ts ih =>
    intro tf m
    unfold procTables
    split
    · rename_i h
      rw [ih]
      simp [h]
    · rename_i h
      rw [ih]
      simp [(by simpa using h : usableTable t = false)]

/-- **C4 (amended).** The text fallback runs on page `i` iff no usable table
(at least two rows) was seen on *any* page up to and including page `i` in
the current attempt (starting from the incoming `tables_found` flag `tf`), or
the registry accumulated so far — including anything carried in via `m` —
is still empty after processing page `i`'s tables.  (The original claim's
"no table was found on that page" must become "... on any page so far of
this attempt": `tables_found` is never reset between pages.) -/
theorem c4_amended (pages : List Page) :
    ∀ (tf : Bool) (m : Reg) (i : Nat), i < pages.length →
    (procPages tf m pages).2.2.getD i false =
      (!(tf || ((pages.take (i + 1)).any fun p => p.tables.any usableTable)) ||
        Reg.isEmpty (procTables (procPages tf m (pages.take i)).1
          (procPages tf m (pages.take i)).2.1
          (pages.getD i ⟨[], none⟩).tables).2) := by
  induction pages with
  | nil => intro tf m i h; cases h
  | cons p ps ih =>
    intro tf m i h
    cases i with
    | zero =>
      simp only [List.take_succ_cons, List.take_zero, List.getD_cons_zero]
      unfold procPages
      dsimp only
      simp [procTables_fst]
    | succ j =>
      have h' : j < ps.length := by simpa using h
      simp only [List.take_succ_cons, List.getD_cons_succ]
      unfold procPages
      dsimp only
      rw [List.getD_cons_succ, ih _ _ j h', procTables_fst]
      simp [Bool.or_assoc]

/-- Well-formed frame: every row has exactly one cell per column (the pandas
DataFrame invariant). -/
def wfDF (df : DF) : Prop := ∀ r ∈ df.rows, r.length = df.cols.length

instance (df : DF) : Decidable (wfDF df) := by
  unfold wfDF
  infer_instance

theorem idxOf?_lt {l : List String} {c : String} {i : Nat}
    (h : idxOf? l c = some i) : i < l.length := by
  induction l generalizing i with
  | nil => cases h
  | cons n ns ih =>
    unfold idxOf? at h
    split at h
    · cases h; simp
    · cases hj : idxOf? ns c with
      | none => rw [hj] at h; cases h
      | some j =>
        rw [hj] at h
        cases h
        have := ih hj
        simp
        omega

theorem idxOf?_get {l : List String} {c : String} {i : Nat}
    (h : idxOf? l c = some i) : l.getD i "" = c := by
  induction l generalizing i with
  | nil => cases h
  | cons n ns ih =>
    unfold idxOf? at h
    split at h
    · cases h
      rename_i hn
      simpa using hn
    · cases hj : idxOf? ns c with
      | none => rw [hj] at h; cases h
      | some j =>
        rw [hj] at h
        cases h
        simpa using ih hj

theorem idxOf?_ne {l : List String} {c c' : String} {i j : Nat}
    (hc : idxOf? l c = some i) (hc' : idxOf? l c' = some j) (h : c ≠ c') : i ≠ j := by
  intro he
  apply h
  rw [← idxOf?_get hc, ← idxOf?_get hc', he]


theorem idxOf?_append_ne {l : List String} {c x : String} (h : c ≠ x) :
    idxOf? (l ++ [x]) c = idxOf? l c := by
  induction l with
  | nil =>
    simp only [List.nil_append]
    unfold idxOf?
    rw [if_neg (Ne.symm h)]
    rfl
  | cons n ns ih =>
    rw [List.cons_append]
    unfold idxOf?
    rw [ih]

theorem idxOf?_append_self {l : List String} {x : String} :
    (idxOf? (l ++ [x]) x).isSome := by
  induction l with
  | nil => simp [idxOf?]
  | cons n ns ih =>
    rw [List.cons_append]
    unfold idxOf?
    split
    · rfl
    · simpa using ih

theorem getD_set_ne {α : Type} (l : List α) (j i : Nat) (v d : α) (h : j ≠ i) :
    (l.set j v).getD i d = l.getD i d := by
  rw [List.getD_eq_getD_get?, List.getD_eq_getD_get?, List.get?_eq_getElem?,
    List.get?_eq_getElem?, List.getElem?_set_ne h]

theorem getD_modify_ne {α : Type} (f : α → α) (l : List α) (j i : Nat) (d : α)
    (h : j ≠ i) : (List.modify f j l).getD i d = l.getD i d := by
  rw [List.getD_eq_getD_get?, List.getD_eq_getD_get?, List.get?_eq_getElem?,
    List.get?_eq_getElem?, List.getElem?_modify]
  simp [h]

theorem zip_map_getD (g : List Cell → Cell → List Cell) {rows : List (List Cell)}
    {vals : List Cell} {i : Nat} {d : Cell} (hlen : rows.length = vals.length)
    (hg : ∀ r ∈ rows, ∀ v, (g r v).getD i d = r.getD i d) :
    ((rows.zip vals).map fun rv => g rv.1 rv.2).map (fun row => row.getD i d) =
      rows.map fun row => row.getD i d := by
  induction rows generalizing vals with
  | nil => simp
  | cons r rs ih =>
    cases vals with
    | nil => cases hlen
    | cons v vs =>
      simp only [List.zip_cons_cons, List.map_cons]
      rw [hg r (List.mem_cons_self r rs) v,
        ih (by simpa using hlen) fun r' hr' v' => hg r' (List.mem_cons_of_mem r hr') v']

theorem getCol_setCol_ne {df : DF} {x c : String} {vals : List Cell}
    (hwf : wfDF df) (hlen : df.rows.length = vals.length) (hne : c ≠ x) :
    getCol (setCol df x vals) c = getCol df c := by
  unfold getCol setCol colIdx
  cases hx : idxOf? df.cols x with
  | some j =>
    dsimp only
    cases hc : idxOf? df.cols c with
    | none => rfl
    | some i =>
      simp only [Option.map_some']
      have hij : j ≠ i := idxOf?_ne hx hc (Ne.symm hne)
      rw [zip_map_getD (fun r v => r.set j v) hlen fun r _ v => getD_set_ne r j i v _ hij]
  | none =>
    dsimp only
    rw [idxOf?_append_ne hne]
    cases hc : idxOf? df.cols c with
    | none => rfl
    | some i =>
      simp only [Option.map_some']
      rw [zip_map_getD (fun r v => r ++ [v]) hlen fun r hr v => List.getD_append _ _ _ _
        (by rw [hwf r hr]; exact idxOf?_lt hc)]

theorem getCol_convert_ne {df : DF} {c : String} (hd : c ∉ (dateCols df).take 1) :
    getCol (convertDateCol df) c = getCol df c := by
  unfold convertDateCol
  cases hdc : dateCols df with
  | nil => rfl
  | cons d ds =>
    have hne : c ≠ d := by
      intro h
      apply hd
      rw [hdc, h]
      simp
    dsimp only
    cases hx : colIdx df d with
    | none => rfl
    | some j =>
      unfold getCol colIdx
      unfold colIdx at hx
      cases hc : idxOf? df.cols c with
      | none => rfl
      | some i =>
        dsimp only
        simp only [Option.map_some']
        have hij : j ≠ i := idxOf?_ne hx hc (Ne.symm hne)
        rw [List.map_map]
        refine congrArg some (List.map_congr_left fun r _ => ?_)
        exact getD_modify_ne convCell r j i _ hij

theorem wf_convert {df : DF} (h : wfDF df) : wfDF (convertDateCol df) := by
  unfold convertDateCol
  cases dateCols df with
  | nil => exact h
  | cons d ds =>
    dsimp only
    cases colIdx df d with
    | none => exact h
    | some j =>
      intro r hr
      rcases List.mem_map.mp hr with ⟨r0, hr0, rfl⟩
      rw [List.length_modify]
      exact h r0 hr0

theorem wf_setCol {df : DF} {x : String} {vals : List Cell} (h : wfDF df) :
    wfDF (setCol df x vals) := by
  unfold setCol
  cases colIdx df x with
  | some j =>
    intro r hr
    rcases List.mem_map.mp hr with ⟨rv, hrv, rfl⟩
    rw [List.length_set]
    exact h rv.1 (List.of_mem_zip hrv).1
  | none =>
    intro r hr
    rcases List.mem_map.mp hr with ⟨rv, hrv, rfl⟩
    simp only [List.length_append, List.length_cons, List.length_nil]
    rw [h rv.1 (List.of_mem_zip hrv).1]

theorem rows_setCol_len {df : DF} {x : String} {vals : List Cell} :
    (setCol df x vals).rows.length = min df.rows.length vals.length := by
  unfold setCol
  cases colIdx df x <;> simp

theorem rows_convert_len {df : DF} : (convertDateCol df).rows.length = df.rows.length := by
  unfold convertDateCol
  cases dateCols df with
  | nil => rfl
  | cons d ds =>
    dsimp only
    cases colIdx df d with
    | none => rfl
    | some j => simp

theorem getCol_self_setCol {df : DF} {x : String} {vals : List Cell} :
    ∃ col, getCol (setCol df x vals) x = some col ∧
      col.length = min df.rows.length vals.length := by
  unfold getCol setCol colIdx
  cases hx : idxOf? df.cols x with
  | some j =>
    dsimp only
    rw [hx]
    exact ⟨_, rfl, by simp⟩
  | none =>
    dsimp only
    obtain ⟨j, hj⟩ := Option.isSome_iff_exists.mp (@idxOf?_append_self df.cols x)
    rw [hj]
    exact ⟨_, rfl, by simp⟩

/-- **C2 (amended).** `fill_excel` passes every original column through
unchanged *except* the two rate columns `T15`/`B15` and the first date-named
column (name containing `date` but not `brokerage`), which is rewritten to
`%d-%m-%Y` strings by the `pd.to_datetime` step. -/
theorem c2_amended (score : List Char → List Char → Nat) (m : Reg) (df : DF)
    (c : String) (hwf : wfDF df) (ht : c ≠ "T15") (hb : c ≠ "B15")
    (hd : c ∉ (dateCols df).take 1) :
    getCol (fill_excel score m df) c = getCol df c := by
  unfold fill_excel
  dsimp only
  have hwf1 : wfDF (convertDateCol df) := wf_convert hwf
  have hlen1 : (convertDateCol df).rows.length =
      ((convertDateCol df).rows.map fun row =>
        Cell.rate (get_brokerage score (buildNpk m) (convertDateCol df).cols row)).length := by
    rw [List.length_map]
  obtain ⟨col, hcol, hcollen⟩ := @getCol_self_setCol (convertDateCol df) "T15"
    ((convertDateCol df).rows.map fun row =>
      Cell.rate (get_brokerage score (buildNpk m) (convertDateCol df).cols row))
  rw [getCol_setCol_ne (wf_setCol hwf1) ?hl2 hb, getCol_setCol_ne hwf1 hlen1 ht,
    getCol_convert_ne hd]
  case hl2 =>
    rw [hcol]
    simp only [Option.getD_some]
    rw [hcollen, rows_setCol_len]

/-- Witness for C2 (amended): a non-date, non-rate column is passed through. -/
theorem c2_amended_witness :
    getCol (fill_excel zeroScore []
      ⟨["Notes", "Schemename", "BrokerageName"],
       [[Cell.str "hello", Cell.str "ABC Fund", Cell.str "FIRST YEAR TRAIL"]]⟩) "Notes" =
    getCol
      ⟨["Notes", "Schemename", "BrokerageName"],
       [[Cell.str "hello", Cell.str "ABC Fund", Cell.str "FIRST YEAR TRAIL"]]⟩ "Notes" :=
  c2_amended zeroScore []
    ⟨["Notes", "Schemename", "BrokerageName"],
     [[Cell.str "hello", Cell.str "ABC Fund", Cell.str "FIRST YEAR TRAIL"]]⟩ "Notes"
    (by decide) (by decide) (by decide) (by decide)

/-- Witness for C4 (amended): the characterization instantiated on the
two-page document at page 2. -/
theorem c4_amended_witness :
    (procPages false [] twoPageDoc.pages).2.2.getD 1 false =
      (!(false || ((twoPageDoc.pages.take 2).any fun p => p.tables.any usableTable)) ||
        Reg.isEmpty (procTables (procPages false [] (twoPageDoc.pages.take 1)).1
          (procPages false [] (twoPageDoc.pages.take 1)).2.1
          (twoPageDoc.pages.getD 1 ⟨[], none⟩).tables).2) :=
  c4_amended twoPageDoc.pages false [] 1 (by decide)

theorem charOfNat_toNat {m : Nat} (h : m < 55296) : (Char.ofNat m).toNat = m := by
  have hv : m.isValidChar := Or.inl h
  unfold Char.ofNat
  rw [dif_pos hv]
  rfl

theorem pyLower_toNat {c : Char} (h : 65 ≤ c.toNat ∧ c.toNat ≤ 90) :
    (pyLower c).toNat = c.toNat + 32 := by
  unfold pyLower
  rw [if_pos h]
  exact charOfNat_toNat (by omega)

theorem pyLower_eq_of_not {c : Char} (h : ¬(65 ≤ c.toNat ∧ c.toNat ≤ 90)) :
    pyLower c = c := if_neg h

theorem pyLower_idem (c : Char) : pyLower (pyLower c) = pyLower c := by
  by_cases h : 65 ≤ c.toNat ∧ c.toNat ≤ 90
  · have h2 := pyLower_toNat h
    apply pyLower_eq_of_not
    rw [h2]
    omega
  · rw [pyLower_eq_of_not h]
    exact pyLower_eq_of_not h

theorem pyIsSpace_pyLower (c : Char) : pyIsSpace (pyLower c) = pyIsSpace c := by
  by_cases h : 65 ≤ c.toNat ∧ c.toNat ≤ 90
  · have h2 := pyLower_toNat h
    have hl : pyIsSpace (pyLower c) = false := by
      simp only [pyIsSpace, h2, Bool.or_eq_false_iff, decide_eq_false_iff_not]
      omega
    have hr : pyIsSpace c = false := by
      simp only [pyIsSpace, Bool.or_eq_false_iff, decide_eq_false_iff_not]
      omega
    rw [hl, hr]
  · rw [pyLower_eq_of_not h]

theorem keepChar_pyLower {c : Char} (h : keepChar c = true) :
    keepChar (pyLower c) = true := by
  by_cases hr : 65 ≤ c.toNat ∧ c.toNat ≤ 90
  · have h2 := pyLower_toNat hr
    simp only [keepChar, pyIsWord, pyIsSpace, h2, Bool.or_eq_true, Bool.and_eq_true,
      decide_eq_true_eq]
    omega
  · rwa [pyLower_eq_of_not hr]

theorem dropWhile_idem {α : Type} (p : α → Bool) (l : List α) :
    (l.dropWhile p).dropWhile p = l.dropWhile p := by
  induction l with
  | nil => rfl
  | cons c cs ih =>
    by_cases h : p c = true
    · rw [List.dropWhile_cons_of_pos h, ih]
    · rw [List.dropWhile_cons_of_neg h, List.dropWhile_cons_of_neg h]

theorem exists_dropWhile_drop {α : Type} (p : α → Bool) (l : List α) :
    ∃ k, k ≤ l.length ∧ l.dropWhile p = l.drop k := by
  induction l with
  | nil => exact ⟨0, by simp, rfl⟩
  | cons c cs ih =>
    by_cases h : p c = true
    · obtain ⟨k, hk, he⟩ := ih
      exact ⟨k + 1, by simpa using hk, by rw [List.dropWhile_cons_of_pos h, he]; rfl⟩
    · exact ⟨0, by simp, by rw [List.dropWhile_cons_of_neg h]; rfl⟩

/-- `noLead l`: `l` has no leading whitespace. -/
def noLead (l : List Char) : Prop := l.dropWhile pyIsSpace = l

/-- `noTrail l`: `l` has no trailing whitespace. -/
def noTrail (l : List Char) : Prop := l.reverse.dropWhile pyIsSpace = l.reverse

theorem pyStrip_of_stripped {l : List Char} (h1 : noLead l) (h2 : noTrail l) :
    pyStrip l = l := by
  unfold pyStrip
  rw [h1, h2, List.reverse_reverse]

theorem revDropRev {α : Type} (a : List α) (k : Nat) :
    ((a.reverse).drop k).reverse = a.take (a.length - k) := by
  have h : ((a.reverse).drop k).reverse ++ ((a.reverse).take k).reverse = a := by
    rw [← List.reverse_append, List.take_append_drop, List.reverse_reverse]
  have h2 := List.take_left ((a.reverse.drop k).reverse) ((a.reverse.take k).reverse)
  rw [h] at h2
  rw [List.length_reverse, List.length_drop, List.length_reverse] at h2
  exact h2.symm

theorem pyStrip_take (l : List Char) :
    ∃ m, pyStrip l = (l.dropWhile pyIsSpace).take m := by
  obtain ⟨k, _, he⟩ := exists_dropWhile_drop pyIsSpace (l.dropWhile pyIsSpace).reverse
  refine ⟨(l.dropWhile pyIsSpace).length - k, ?_⟩
  unfold pyStrip
  rw [he, revDropRev]

theorem noLead_take {l : List Char} (h : noLead l) (m : Nat) : noLead (l.take m) := by
  cases l with
  | nil => simp [noLead]
  | cons c cs =>
    have hc : pyIsSpace c = false := by
      by_contra hc
      have hc' : pyIsSpace c = true := by
        cases hx : pyIsSpace c
        · exact absurd hx hc
        · rfl
      unfold noLead at h
      rw [List.dropWhile_cons_of_pos hc'] at h
      obtain ⟨k, hk, he⟩ := exists_dropWhile_drop pyIsSpace cs
      have := congrArg List.length h
      rw [he] at this
      simp [List.length_drop] at this
      omega
    cases m with
    | zero => simp [noLead]
    | succ n =>
      unfold noLead
      rw [List.take_succ_cons, List.dropWhile_cons_of_neg (by rw [hc]; simp)]

theorem noLead_pyStrip (l : List Char) : noLead (pyStrip l) := by
  obtain ⟨m, hm⟩ := pyStrip_take l
  rw [hm]
  exact noLead_take (dropWhile_idem pyIsSpace l) m

theorem noTrail_pyStrip (l : List Char) : noTrail (pyStrip l) := by
  unfold noTrail pyStrip
  rw [List.reverse_reverse]
  exact dropWhile_idem pyIsSpace _

theorem pyStrip_idem (l : List Char) : pyStrip (pyStrip l) = pyStrip l :=
  pyStrip_of_stripped (noLead_pyStrip l) (noTrail_pyStrip l)

theorem noLead_map_pyLower {l : List Char} (h : noLead l) : noLead (l.map pyLower) := by
  unfold noLead
  rw [List.dropWhile_map]
  have hp : pyIsSpace ∘ pyLower = pyIsSpace := funext fun c => pyIsSpace_pyLower c
  rw [hp, h]

theorem noTrail_map_pyLower {l : List Char} (h : noTrail l) : noTrail (l.map pyLower) := by
  unfold noTrail
  rw [← List.map_reverse, List.dropWhile_map]
  have hp : pyIsSpace ∘ pyLower = pyIsSpace := funext fun c => pyIsSpace_pyLower c
  rw [hp, h]

theorem cleanText_noLead (s : List Char) : noLead (cleanText s) :=
  noLead_map_pyLower (noLead_pyStrip _)

theorem cleanText_noTrail (s : List Char) : noTrail (cleanText s) :=
  noTrail_map_pyLower (noTrail_pyStrip _)

theorem planTailAt_cons_space {c : Char} {rest : List Char} (h : pyIsSpace c = true) :
    planTailAt (c :: rest) = planTailAt rest := by
  unfold planTailAt
  rw [List.dropWhile_cons_of_pos h]

theorem planTailIdxGo_spec {s : List Char} :
    ∀ {fuel i j : Nat}, planTailIdxGo s i fuel = some j →
      planTailAt (s.drop j) = true ∧ i ≤ j ∧ j < i + fuel ∧
        ∀ l, i ≤ l → l < j → planTailAt (s.drop l) = false := by
  intro fuel
  induction fuel with
  | zero => intro i j h; cases h
  | succ n ih =>
    intro i j h
    unfold planTailIdxGo at h
    split at h
    · cases h
      rename_i hat
      exact ⟨hat, Nat.le_refl i, by omega, fun l hl1 hl2 => absurd (Nat.lt_of_le_of_lt hl1 hl2) (by omega)⟩
    · obtain ⟨hat, hle, hlt, hmin⟩ := ih h
      rename_i hnot
      refine ⟨hat, by omega, by omega, ?_⟩
      intro l hl1 hl2
      rcases Nat.eq_or_lt_of_le hl1 with rfl | hl
      · simpa using hnot
      · exact hmin l hl hl2

theorem stripPlanOnce_stripped {t : List Char} (h1 : noLead t) (h2 : noTrail t) :
    noLead (stripPlanOnce t) ∧ noTrail (stripPlanOnce t) := by
  unfold stripPlanOnce
  cases hi : planTailIdx t with
  | none => exact ⟨h1, h2⟩
  | some i =>
    dsimp only
    obtain ⟨hat, _, hlt, hmin⟩ := planTailIdxGo_spec hi
    refine ⟨noLead_take h1 i, ?_⟩
    cases i with
    | zero => simp [noTrail]
    | succ n =>
      have hn : n < t.length := by omega
      have hsp : pyIsSpace (t.get ⟨n, hn⟩) = false := by
        cases hspc : pyIsSpace (t.get ⟨n, hn⟩)
        · rfl
        · exfalso
          have hd : t.drop n = t.get ⟨n, hn⟩ :: t.drop (n + 1) := by
            rw [List.drop_eq_getElem_cons hn]
            simp [List.get_eq_getElem]
          have hm := hmin n (Nat.zero_le n) (Nat.lt_succ_self n)
          rw [hd, planTailAt_cons_space hspc] at hm
          rw [hat] at hm
          cases hm
      unfold noTrail
      rw [List.take_succ]
      have hg : t[n]? = some (t.get ⟨n, hn⟩) := by
        rw [List.getElem?_eq_getElem hn]
        simp [List.get_eq_getElem]
      rw [hg]
      simp only [Option.toList_some]
      rw [List.reverse_append]
      simp only [List.reverse_cons, List.reverse_nil, List.nil_append, List.singleton_append]
      rw [List.dropWhile_cons_of_neg (by rw [hsp]; simp)]

theorem normalize_eq_stripPlanOnce (s : List Char) :
    normalize s = stripPlanOnce (cleanText s) := by
  unfold normalize
  obtain ⟨hl, ht⟩ := stripPlanOnce_stripped (cleanText_noLead s) (cleanText_noTrail s)
  exact pyStrip_of_stripped hl ht

theorem mem_dropWhile {α : Type} {p : α → Bool} {a : α} {l : List α}
    (h : a ∈ l.dropWhile p) : a ∈ l := by
  obtain ⟨k, _, he⟩ := exists_dropWhile_drop p l
  rw [he] at h
  exact List.mem_of_mem_drop h

theorem mem_pyStrip {a : Char} {l : List Char} (h : a ∈ pyStrip l) : a ∈ l := by
  unfold pyStrip at h
  rw [List.mem_reverse] at h
  have h2 := mem_dropWhile h
  rw [List.mem_reverse] at h2
  exact mem_dropWhile h2

theorem cleanText_chars {s : List Char} :
    ∀ c ∈ cleanText s, pyLower c = c ∧ keepChar c = true := by
  intro c hc
  unfold cleanText at hc
  rcases List.mem_map.mp hc with ⟨b, hb, rfl⟩
  have hbf := mem_pyStrip hb
  have hk : keepChar b = true := (List.mem_filter.mp hbf).2
  exact ⟨pyLower_idem b, keepChar_pyLower hk⟩

theorem mem_stripPlanOnce {a : Char} {t : List Char} (h : a ∈ stripPlanOnce t) :
    a ∈ t := by
  unfold stripPlanOnce at h
  split at h
  · exact List.take_subset _ t h
  · exact h

theorem mapFix {α : Type} {l : List α} {f : α → α} (h : ∀ a ∈ l, f a = a) :
    l.map f = l := by
  rw [List.map_congr_left h, List.map_id']

/-- `cleanText` is the identity on an already-normalized string. -/
theorem cleanText_normalize (s : List Char) : cleanText (normalize s) = normalize s := by
  rw [normalize_eq_stripPlanOnce]
  have hchars : ∀ c ∈ stripPlanOnce (cleanText s), pyLower c = c ∧ keepChar c = true :=
    fun c hc => cleanText_chars c (mem_stripPlanOnce hc)
  obtain ⟨hl, ht⟩ := stripPlanOnce_stripped (cleanText_noLead s) (cleanText_noTrail s)
  generalize hgen : stripPlanOnce (cleanText s) = n at hchars hl ht ⊢
  unfold cleanText
  rw [List.filter_eq_self.mpr fun a ha => (hchars a ha).2]
  rw [pyStrip_of_stripped hl ht]
  exact mapFix fun a ha => (hchars a ha).1

/-- **C9.** The normalizer is idempotent on every input that does not end
with a duplicated trailing plan-qualifier phrase (formally: after cleaning
and removing one trailing plan phrase, no further removable plan phrase
remains). -/
theorem c9_normalize_idem (s : List Char) (h : dupPlanTail s = false) :
    normalize (normalize s) = normalize s := by
  have step : normalize (normalize s) = pyStrip (stripPlanOnce (cleanText (normalize s))) := rfl
  rw [step, cleanText_normalize]
  have hplan : planTailIdx (normalize s) = none := by
    rw [normalize_eq_stripPlanOnce]
    unfold dupPlanTail hasPlanTail at h
    cases hx : planTailIdx (stripPlanOnce (cleanText s))
    · rfl
    · rw [hx] at h
      cases h
  have hstrip : stripPlanOnce (normalize s) = normalize s := by
    unfold stripPlanOnce
    rw [hplan]
  rw [hstrip]
  have : normalize s = pyStrip (stripPlanOnce (cleanText s)) := rfl
  rw [this, pyStrip_idem]

/-- Witness for C9: a concrete name with one plan suffix normalizes
idempotently. -/
theorem c9_witness :
    normalize (normalize "ABC Fund - Regular Plan".data) =
      normalize "ABC Fund - Regular Plan".data :=
  c9_normalize_idem "ABC Fund - Regular Plan".data (by decide)
